import Mathlib

/-!
# Verification of the fvp VPN server datapath

A shallow embedding of the fvp repository's core datapath, translated from
the Go sources:

* `internal/protocol/packet.go`, `validation.go` and the packet
  parse/encode file — the wire codec;
* `internal/crypto/keys.go`, `encryption.go` — key registry and AEAD calls;
* `internal/server/client_manager.go` — the peer table;
* `internal/server/packet_processor.go` and the server packet handlers —
  the ingress and egress pumps.

Modelling conventions: bytes are `Nat` values below 256; Go's fixed-width
integers are `Nat` with an explicit `% 2^w` exactly where Go performs a
conversion or can overflow; Go maps are association lists (Go map iteration
order is never relied on by the modelled code paths); fallible Go functions
return `Option` or `Except`; `time.Time` is a `Nat` passed in as `now`;
functions from external modules (the ChaCha20-Poly1305 cipher, YAML
unmarshalling, UDP/TUN I/O) are parameters of the model or are modelled
from the spec where a concrete instance is needed.
-/

namespace FVP

/-- IPv4 addresses. The Go code renders them with
`fmt.Sprintf("%d.%d.%d.%d", a, b, c, d)`, which is injective on octet
quadruples, so the quadruple itself is the model. -/
abbrev IPv4 := Nat × Nat × Nat × Nat

/-- Wire packet, from `internal/protocol/packet.go`. In Go: `Magic [3]byte`,
`Type uint8`, `ClientID uint8`, `Sequence uint32`, `Length uint16`,
`Version uint8`, `Payload []byte`. -/
structure Packet where
  magic : Nat × Nat × Nat
  type : Nat
  clientID : Nat
  sequence : Nat
  length : Nat
  version : Nat
  payload : List Nat
deriving DecidableEq

/-- `ParsePacket` from the protocol package: fails when fewer than
`HeaderSize = 12` bytes are available; otherwise reads the header fields at
their fixed offsets (sequence and length little-endian) and takes the whole
remainder `data[12:]` as the payload. -/
def ParsePacket (data : List Nat) : Option Packet :=
  match data with
  | m0 :: m1 :: m2 :: t :: cid :: s0 :: s1 :: s2 :: s3 :: l0 :: l1 :: v :: payload =>
      some { magic := (m0, m1, m2), type := t, clientID := cid,
             sequence := s0 + 256 * s1 + 65536 * s2 + 16777216 * s3,
             length := l0 + 256 * l1, version := v, payload := payload }
  | _ => none

/-- `EncodePacket`: writes the 12-byte header (sequence and length
little-endian) followed by the payload. The Go function returns
`([]byte, error)` but the error is always nil. -/
def EncodePacket (p : Packet) : List Nat :=
  [p.magic.1, p.magic.2.1, p.magic.2.2, p.type, p.clientID,
   p.sequence % 256, p.sequence / 256 % 256,
   p.sequence / 65536 % 256, p.sequence / 16777216 % 256,
   p.length % 256, p.length / 256 % 256,
   p.version] ++ p.payload

/-- `parseVersion` from `internal/protocol/validation.go`: the major version
is hardcoded to 1 (it is not encoded in the byte); minor is `version >> 3`
and patch is `version & 0x07`, i.e. `/ 8` and `% 8` on naturals. -/
def parseVersion (version : Nat) : Nat × Nat × Nat :=
  (1, version / 8, version % 8)

/-- `ValidateMagic`: the magic must be the ASCII bytes "FVP" = 70, 86, 80. -/
def ValidateMagic (p : Packet) : Bool :=
  decide (p.magic = (70, 86, 80))

/-- `ValidateVersion`: rejects when the decoded major version differs from
`ProtocolVersionMajor = 1`. Since `parseVersion` hardcodes major to 1 this
check never fails. -/
def ValidateVersion (p : Packet) : Bool :=
  decide ((parseVersion p.version).1 = 1)

/-- `ValidateType`: the type must lie between `PacketTypeData = 1` and
`PacketTypePong = 4`. -/
def ValidateType (p : Packet) : Bool :=
  decide (1 ≤ p.type ∧ p.type ≤ 4)

/-- `ValidateLength`: Go compares `packet.Length != uint16(len(packet.Payload))`;
the `uint16` conversion truncates the length modulo 2^16. -/
def ValidateLength (p : Packet) : Bool :=
  decide (p.length = p.payload.length % 65536)

/-- Which validation check failed (the Go code returns distinct error
values built with `fmt.Errorf`, one per check). -/
inductive ValErr where
  | magic
  | version
  | ptype
  | plength
deriving DecidableEq

/-- `ValidatePacket`: runs the four validators in the order magic, version,
type, length; the first failure is returned. -/
def ValidatePacket (p : Packet) : Option ValErr :=
  if !ValidateMagic p then some .magic
  else if !ValidateVersion p then some .version
  else if !ValidateType p then some .ptype
  else if !ValidateLength p then some .plength
  else none

/-- `DecodePacket` = `ParsePacket` followed by `ValidatePacket`. -/
def DecodePacket (data : List Nat) : Option Packet :=
  match ParsePacket data with
  | none => none
  | some p =>
      match ValidatePacket p with
      | none => some p
      | some _ => none

/-- Well-formedness of a packet value: the ranges imposed by the Go field
types (`[3]byte`, `uint8`, `uint32`, `uint16`) together with the claim's
condition that the Length field equals the payload size. -/
def Packet.WF (p : Packet) : Prop :=
  p.magic.1 < 256 ∧ p.magic.2.1 < 256 ∧ p.magic.2.2 < 256 ∧
  p.type < 256 ∧ p.clientID < 256 ∧ p.sequence < 4294967296 ∧
  p.length < 65536 ∧ p.version < 256 ∧ p.length = p.payload.length

instance (p : Packet) : Decidable p.WF := by
  unfold Packet.WF
  infer_instance

/-! ### Go maps as association lists -/

/-- Association-list lookup: Go map indexing `v, ok := m[k]`. -/
def alookup {α β : Type} [DecidableEq α] : List (α × β) → α → Option β
  | [], _ => none
  | (k, v) :: rest, a => if k = a then some v else alookup rest a

/-- Go `delete(m, k)`: removes the entry for `k`. The lists modelling Go
maps hold at most one entry per key. -/
def eraseKey {α β : Type} [DecidableEq α] : List (α × β) → α → List (α × β)
  | [], _ => []
  | (k, v) :: rest, a => if k = a then rest else (k, v) :: eraseKey rest a

/-- Go `m[k] = v` on a key that is already present: in-place update. -/
def setKey {α β : Type} [DecidableEq α] : List (α × β) → α → β → List (α × β)
  | [], _, _ => []
  | (k, v) :: rest, a, b =>
      if k = a then (a, b) :: rest else (k, v) :: setKey rest a b

/-- Go `m[k] = v` in general: update in place when the key is present,
append a fresh entry otherwise. -/
def mapInsert {α β : Type} [DecidableEq α] (l : List (α × β)) (a : α)
    (b : β) : List (α × β) :=
  if (alookup l a).isSome then setKey l a b else l ++ [(a, b)]

/-! ### Key registry (`internal/crypto/keys.go`) -/

/-- `encoding/hex` digit values: `0`-`9`, `a`-`f`, `A`-`F`. -/
def hexDigitVal (c : Char) : Option Nat :=
  if '0' ≤ c ∧ c ≤ '9' then some (c.toNat - 48)
  else if 'a' ≤ c ∧ c ≤ 'f' then some (c.toNat - 87)
  else if 'A' ≤ c ∧ c ≤ 'F' then some (c.toNat - 55)
  else none

/-- `hex.DecodeString`: fails on an odd-length input or on any non-hex
character, otherwise yields one byte per pair of digits. -/
def hexDecode : List Char → Option (List Nat)
  | [] => some []
  | [_] => none
  | a :: b :: rest =>
      match hexDigitVal a, hexDigitVal b, hexDecode rest with
      | some x, some y, some r => some ((16 * x + y) :: r)
      | _, _, _ => none

/-- One YAML `clients` entry (`crypto.ClientConfig`): an id and a
hex-encoded key string. -/
structure ClientConfig where
  id : Nat
  key : List Char
deriving DecidableEq

/-- The decoded YAML configuration (`crypto.Config`), restricted to the
part `LoadKeysFromConfig` inspects. Reading the file and unmarshalling the
YAML are external (`os.ReadFile`, `gopkg.in/yaml.v3`); the model starts
from the decoded entry list. -/
structure Config where
  clients : List ClientConfig
deriving DecidableEq

/-- The loop of `KeyManager.LoadKeysFromConfig`: for each entry, decode the
hex key (error on non-hex input), error unless the key is exactly 32 bytes,
then `km.keys[client.ID] = key` — overwriting any previous entry with the
same id. -/
def loadKeysLoop :
    List ClientConfig → List (Nat × List Nat) →
      Except String (List (Nat × List Nat))
  | [], acc => .ok acc
  | e :: rest, acc =>
      match hexDecode e.key with
      | none => .error "invalid hex key"
      | some k =>
          if k.length ≠ 32 then .error "key must be exactly 32 bytes"
          else loadKeysLoop rest (mapInsert acc e.id k)

/-- `LoadKeysFromConfig`: the key map `km.keys` is rebuilt from scratch and
filled by the loop. The map is keyed by the `uint8` client id. -/
def LoadKeysFromConfig (cfg : Config) :
    Except String (List (Nat × List Nat)) :=
  loadKeysLoop cfg.clients []

/-! ### AEAD envelope (`internal/crypto/encryption.go`)

`EncryptPayload`/`DecryptPayload` call the external
`golang.org/x/crypto/chacha20poly1305` cipher, which is not part of this
repository; the datapath models below therefore take the seal/open
functions as parameters. Where a concrete instance is needed, `mockSeal`
below is used. -/

/-- Modelled from the spec: `seal(plain, key, seq)` of the ChaCha20-Poly1305
envelope returns a ciphertext consisting of the encrypted plaintext followed
by a 16-byte authentication tag; only this shape (output length = input
length + 16, with the mock keystream leaving bytes unchanged) is relied on
by the theorems that use it. -/
def mockSeal (plain : List Nat) (_key : List Nat) (_seq : Nat) : List Nat :=
  plain ++ List.replicate 16 0

/-! ### Peer table (`internal/server/client_manager.go`) -/

/-- The per-peer record (`server.Client`). `Key` is the raw 32-byte key;
the Go code keys its `keyToClient` map by `fmt.Sprintf("%x", key)`, which
is injective on byte slices, so the model keys that map by the key bytes
themselves. `Address` is the opaque remote UDP address string. -/
structure ClientRec where
  ip : IPv4
  key : List Nat
  address : String
  connected : Bool
  lastSeen : Nat
  lastSeq : Nat
deriving DecidableEq

/-- The peer table (`server.ClientManager`): `clients` keyed by id,
`ipToClient` keyed by inner IP, `keyToClient` keyed by the key (standing
for its hex fingerprint), and the inactivity timeout. -/
structure CMState where
  clients : List (Nat × ClientRec)
  ipToClient : List (IPv4 × Nat)
  keyToClient : List (List Nat × Nat)
  timeout : Nat
deriving DecidableEq

/-- The named errors of client_manager.go (`ErrClientNotFound`,
`ErrClientAlreadyExists`, `ErrMaxClientsReached`, `ErrInvalidSequence`) plus
the ad-hoc `fmt.Errorf("no IP addresses available")`. -/
inductive CMErr where
  | notFound
  | alreadyExists
  | maxClients
  | invalidSequence
  | noIP
deriving DecidableEq

/-- The scan pattern of `findNextClientID`/`assignNextIP`: try `pred` on
`i, i+1, ..., i+n-1` in order and return the first hit. -/
def scanFirst (pred : Nat → Bool) : Nat → Nat → Option Nat
  | _, 0 => none
  | i, n + 1 => if pred i then some i else scanFirst pred (i + 1) n

/-- `findNextClientID`: `for i := uint8(1); i != 0; i++` scans ids 1..255 in
ascending order and returns the first id with no live client; the loop
wraps to 0 (returned as "none available") after 255. -/
def findNextClientID (s : CMState) : Nat :=
  (scanFirst (fun i => (alookup s.clients i).isNone) 1 255).getD 0

/-- `assignNextIP`: scans `10.0.0.2` .. `10.0.0.255` in ascending order and
returns the first address not present in `ipToClient`; the empty result
models Go's `""`. -/
def assignNextIP (s : CMState) : Option IPv4 :=
  (scanFirst (fun o => (alookup s.ipToClient (10, 0, 0, o)).isNone) 2 254).map
    (fun o => (10, 0, 0, o))

/-- `AddClient(key, address)`: reject when the table holds 256 entries or
the key fingerprint is already present; allocate the next id and IP; insert
the new record into all three maps with `Connected = true`,
`LastSeen = now`, `LastSeq = 0`. -/
def AddClient (s : CMState) (key : List Nat) (address : String) (now : Nat) :
    CMState × Except CMErr (Nat × ClientRec) :=
  if 256 ≤ s.clients.length then (s, .error .maxClients)
  else if (alookup s.keyToClient key).isSome then (s, .error .alreadyExists)
  else
    let clientID := findNextClientID s
    if clientID = 0 then (s, .error .maxClients)
    else
      match assignNextIP s with
      | none => (s, .error .noIP)
      | some ip =>
          let c : ClientRec :=
            { ip := ip, key := key, address := address, connected := true,
              lastSeen := now, lastSeq := 0 }
          ({ s with clients := (clientID, c) :: s.clients,
                    ipToClient := (ip, clientID) :: s.ipToClient,
                    keyToClient := (key, clientID) :: s.keyToClient },
           .ok (clientID, c))

/-- The common eviction step: look the client up and delete it from all
three maps (the bodies of `RemoveClient` and of the `CheckTimeouts`
removal loop). -/
def evictOne (s : CMState) (clientID : Nat) : CMState :=
  match alookup s.clients clientID with
  | none => s
  | some c =>
      { s with clients := eraseKey s.clients clientID,
               ipToClient := eraseKey s.ipToClient c.ip,
               keyToClient := eraseKey s.keyToClient c.key }

/-- `RemoveClient(clientID)`: `ErrClientNotFound` when absent, otherwise
delete from `clients`, `ipToClient` and `keyToClient`. -/
def RemoveClient (s : CMState) (clientID : Nat) :
    CMState × Except CMErr Unit :=
  match alookup s.clients clientID with
  | none => (s, .error .notFound)
  | some _ => (evictOne s clientID, .ok ())

/-- `GetClient(clientID)`. -/
def GetClient (s : CMState) (clientID : Nat) : Option ClientRec :=
  alookup s.clients clientID

/-- `GetClientByIP(ip)`: resolve the id through `ipToClient`, then the
record through `clients`. -/
def GetClientByIP (s : CMState) (ip : IPv4) : Option (Nat × ClientRec) :=
  match alookup s.ipToClient ip with
  | none => none
  | some clientID => (alookup s.clients clientID).map (fun c => (clientID, c))

/-- `UpdateClientActivity(clientID, sequence)`: `ErrClientNotFound` when the
client is absent; `ErrInvalidSequence` when `sequence <= client.LastSeq`;
otherwise set `LastSeen = now` and `LastSeq = sequence`. -/
def UpdateClientActivity (s : CMState) (clientID : Nat) (sequence : Nat)
    (now : Nat) : CMState × Except CMErr Unit :=
  match alookup s.clients clientID with
  | none => (s, .error .notFound)
  | some c =>
      if sequence ≤ c.lastSeq then (s, .error .invalidSequence)
      else
        ({ s with
            clients :=
              setKey s.clients clientID
                { c with lastSeen := now, lastSeq := sequence } },
         .ok ())

/-- `CheckTimeouts`: collect every client with
`now.Sub(LastSeen) > timeout` (over the integers this is exactly
`lastSeen + timeout < now`), then delete each from the three maps. -/
def CheckTimeouts (s : CMState) (now : Nat) : CMState :=
  ((s.clients.filter
      (fun p => decide (p.2.lastSeen + s.timeout < now))).map Prod.fst).foldl
    evictOne s

/-- `determineClient(packetData)`: needs at least a 20-byte IP header; the
source address is bytes 12..15 and the destination bytes 16..19. Traffic
whose destination is the server's own inner IP 10.0.0.1 is routed by
source, all other traffic by destination. -/
def determineClient (s : CMState) (d : List Nat) : Option Nat :=
  if d.length < 20 then none
  else
    let src : IPv4 := (d.getD 12 0, d.getD 13 0, d.getD 14 0, d.getD 15 0)
    let dst : IPv4 := (d.getD 16 0, d.getD 17 0, d.getD 18 0, d.getD 19 0)
    if dst = (10, 0, 0, 1) then (GetClientByIP s src).map Prod.fst
    else (GetClientByIP s dst).map Prod.fst

/-- The states of the peer table reachable from an empty table by the four
mutating operations. -/
inductive Reachable : CMState → Prop
  | init (t : Nat) : Reachable ⟨[], [], [], t⟩
  | add {s} (key : List Nat) (address : String) (now : Nat) :
      Reachable s → Reachable (AddClient s key address now).1
  | remove {s} (clientID : Nat) :
      Reachable s → Reachable (RemoveClient s clientID).1
  | update {s} (clientID sequence now : Nat) :
      Reachable s → Reachable (UpdateClientActivity s clientID sequence now).1
  | check {s} (now : Nat) :
      Reachable s → Reachable (CheckTimeouts s now)

/-- The peer-table representation invariant: the two auxiliary maps are the
id-keyed map reindexed by IP and by key, entries are unique in all three
dimensions, and every live id and inner IP lies in its allocation range. -/
def WF (s : CMState) : Prop :=
  s.ipToClient = s.clients.map (fun p => (p.2.ip, p.1)) ∧
  s.keyToClient = s.clients.map (fun p => (p.2.key, p.1)) ∧
  (s.clients.map Prod.fst).Nodup ∧
  (s.clients.map (fun p => p.2.ip)).Nodup ∧
  (s.clients.map (fun p => p.2.key)).Nodup ∧
  ∀ p ∈ s.clients,
    (1 ≤ p.1 ∧ p.1 ≤ 255) ∧ ∃ o, 2 ≤ o ∧ o ≤ 255 ∧ p.2.ip = (10, 0, 0, o)

/-! ### Packet processing (`internal/server/packet_processor.go` and the
server packet handlers) -/

/-- The version byte stamped on outbound packets
(`protocol.ProtocolVersionByte`). It is initialized at process start from
the injected build version; 0 is the encoding of the default version 1.0.0
and its value is irrelevant to every claim below. -/
def ProtocolVersionByte : Nat := 0

/-- `ProcessPacket(packetData)`, parameterized by the external AEAD `open`
function: decode (parse + validate), look the client up, admit the sequence
via `UpdateClientActivity`, and only then attempt decryption; the decrypted
datagram is the value handed to `tunInterface.WritePacket`. Every failure
returns with no TUN write; a decryption failure keeps the already-advanced
activity state. -/
def ProcessPacket
    (decrypt : List Nat → List Nat → Nat → Option (List Nat))
    (s : CMState) (now : Nat) (data : List Nat) :
    CMState × Option (List Nat) :=
  match DecodePacket data with
  | none => (s, none)
  | some pkt =>
      match GetClient s pkt.clientID with
      | none => (s, none)
      | some client =>
          match UpdateClientActivity s pkt.clientID pkt.sequence now with
          | (s', Except.ok _) =>
              match decrypt pkt.payload client.key pkt.sequence with
              | none => (s', none)
              | some plain => (s', some plain)
          | (s', Except.error _) => (s', none)

/-- `createAndSendPacket(client, ipData)`, parameterized by the external
AEAD seal. The Go code builds a Data packet whose payload is the plaintext
datagram and whose sequence is `client.LastSeq + 1` (uint32 addition),
encodes it, then encrypts **the entire encoded packet** and hands the
ciphertext to the UDP socket. Returns the bytes written to the socket and
the sequence used; no state is returned because the function mutates
nothing. -/
def createAndSendPacket
    (sealFn : List Nat → List Nat → Nat → List Nat)
    (c : ClientRec) (clientID : Nat) (ipData : List Nat) : List Nat × Nat :=
  let seq := (c.lastSeq + 1) % 4294967296
  let pkt : Packet :=
    { magic := (70, 86, 80), type := 1, clientID := clientID,
      sequence := seq, length := ipData.length % 65536,
      version := ProtocolVersionByte, payload := ipData }
  (sealFn (EncodePacket pkt) c.key seq, seq)

/-- `ProcessOutgoingPacket` (after the TUN read): resolve the peer from the
datagram addresses, look its record up, and send. The peer-table state is
returned unchanged — the Go code never commits the used sequence back. -/
def ProcessOutgoingPacket
    (sealFn : List Nat → List Nat → Nat → List Nat)
    (s : CMState) (ipData : List Nat) :
    CMState × Option (List Nat × Nat) :=
  match determineClient s ipData with
  | none => (s, none)
  | some clientID =>
      match GetClient s clientID with
      | none => (s, none)
      | some c => (s, some (createAndSendPacket sealFn c clientID ipData))

/-- `handleAuthPacket(packet, clientAddr)` from the server's packet
dispatch. `ClientID = 0` requests assignment: the server draws a fresh
random key (the RNG is external, so the key is a parameter) and checks id
availability before inserting. A nonzero claimed id must be present in the
key registry (`HasClient` then `GetClientKey`, one map lookup in the
model); the registry key is then passed to `AddClient`. Any `AddClient`
error is logged and dropped, leaving the table unchanged. Returns the new
state and the admitted peer (id and record), `none` on silent failure. -/
def handleAuthPacket (s : CMState) (registry : List (Nat × List Nat))
    (pkt : Packet) (addr : String) (now : Nat) (freshKey : List Nat) :
    CMState × Option (Nat × ClientRec) :=
  if pkt.clientID = 0 then
    if findNextClientID s = 0 then (s, none)
    else
      match AddClient s freshKey addr now with
      | (s', Except.ok c) => (s', some c)
      | (_, Except.error _) => (s, none)
  else
    match alookup registry pkt.clientID with
    | none => (s, none)
    | some key =>
        match AddClient s key addr now with
        | (s', Except.ok c) => (s', some c)
        | (_, Except.error _) => (s, none)

end FVP

namespace FVP

/-- **C8** The wire codec round-trips: parsing an encoded well-formed packet
recovers the packet, and re-encoding any successfully parsed byte string
recovers the bytes. -/
theorem claim_C8_codec_roundtrip :
    (∀ p : Packet, p.WF → ParsePacket (EncodePacket p) = some p) ∧
    (∀ (b : List Nat) (q : Packet), (∀ x ∈ b, x < 256) →
      ParsePacket b = some q → EncodePacket q = b) := by
  constructor
  · rintro ⟨⟨ma, mb, mc⟩, t, cid, seq, len, v, payload⟩ hWF
    obtain ⟨h1, h2, h3, h4, h5, h6, h7, h8, h9⟩ := hWF
    dsimp only [EncodePacket, List.cons_append, List.nil_append, ParsePacket]
    have hS : seq % 256 + 256 * (seq / 256 % 256) + 65536 * (seq / 65536 % 256)
        + 16777216 * (seq / 16777216 % 256) = seq := by
      dsimp only at h6
      omega
    have hL : len % 256 + 256 * (len / 256 % 256) = len := by
      dsimp only at h7
      omega
    rw [hS, hL]
  · intro b q hb hq
    unfold ParsePacket at hq
    split at hq
    · rename_i m0 m1 m2 t cid s0 s1 s2 s3 l0 l1 v payload
      injection hq with hq
      subst hq
      simp only [List.mem_cons, forall_eq_or_imp] at hb
      obtain ⟨c0, c1, c2, c3, c4, c5, c6, c7, c8, c9, c10, c11, _⟩ := hb
      dsimp only [EncodePacket, List.cons_append, List.nil_append]
      have e0 : (s0 + 256 * s1 + 65536 * s2 + 16777216 * s3) % 256 = s0 := by
        omega
      have e1 : (s0 + 256 * s1 + 65536 * s2 + 16777216 * s3) / 256 % 256 = s1 := by
        omega
      have e2 : (s0 + 256 * s1 + 65536 * s2 + 16777216 * s3) / 65536 % 256 = s2 := by
        omega
      have e3 : (s0 + 256 * s1 + 65536 * s2 + 16777216 * s3) / 16777216 % 256 = s3 := by
        omega
      have e4 : (l0 + 256 * l1) % 256 = l0 := by omega
      have e5 : (l0 + 256 * l1) / 256 % 256 = l1 := by omega
      rw [e0, e1, e2, e3, e4, e5]
    · exact absurd hq (by simp)

/-- **C8 witness**: the round-trip evaluated at a concrete packet and at the
concrete byte string that encodes it. -/
theorem claim_C8_codec_roundtrip_witness :
    (({ magic := (70, 86, 80), type := 1, clientID := 3, sequence := 258,
        length := 2, version := 0, payload := [9, 10] } : Packet).WF ∧
      ParsePacket (EncodePacket
        { magic := (70, 86, 80), type := 1, clientID := 3, sequence := 258,
          length := 2, version := 0, payload := [9, 10] }) =
        some { magic := (70, 86, 80), type := 1, clientID := 3,
               sequence := 258, length := 2, version := 0,
               payload := [9, 10] }) ∧
    ((∀ x ∈ [70, 86, 80, 1, 3, 2, 1, 0, 0, 2, 0, 0, 9, 10], x < 256) ∧
      ParsePacket [70, 86, 80, 1, 3, 2, 1, 0, 0, 2, 0, 0, 9, 10] =
        some { magic := (70, 86, 80), type := 1, clientID := 3,
               sequence := 258, length := 2, version := 0,
               payload := [9, 10] } ∧
      EncodePacket
        { magic := (70, 86, 80), type := 1, clientID := 3, sequence := 258,
          length := 2, version := 0, payload := [9, 10] } =
        [70, 86, 80, 1, 3, 2, 1, 0, 0, 2, 0, 0, 9, 10]) :=
  ⟨⟨by decide, claim_C8_codec_roundtrip.1 _ (by decide)⟩,
   ⟨by decide, by decide,
    claim_C8_codec_roundtrip.2 _ _ (by decide) (by decide)⟩⟩

/-- **C9 counterexample** The claim says `ValidatePacket` rejects every
packet whose Length field differs from its payload size. The code compares
the Length field against `uint16(len(payload))`, so a packet with a
65536-byte payload and Length 0 is accepted although 0 ≠ 65536. -/
theorem claim_C9_counterexample :
    (({ magic := (70, 86, 80), type := 1, clientID := 0, sequence := 0,
        length := 0, version := 0,
        payload := List.replicate 65536 0 } : Packet).length ≠
      (List.replicate (65536 : Nat) (0 : Nat)).length) ∧
    ValidatePacket
      { magic := (70, 86, 80), type := 1, clientID := 0, sequence := 0,
        length := 0, version := 0,
        payload := List.replicate 65536 0 } = none := by
  have hlen : (List.replicate (65536 : Nat) (0 : Nat)).length = 65536 :=
    List.length_replicate 65536 0
  have hpay :
      ({ magic := (70, 86, 80), type := 1, clientID := 0, sequence := 0,
         length := 0, version := 0,
         payload := List.replicate 65536 0 } : Packet).payload
        = List.replicate 65536 0 := rfl
  constructor
  · rw [hlen]
    decide
  · have h4 : ValidateLength
        { magic := (70, 86, 80), type := 1, clientID := 0, sequence := 0,
          length := 0, version := 0,
          payload := List.replicate 65536 0 } = true := by
      unfold ValidateLength
      rw [hpay, hlen]
      rfl
    unfold ValidatePacket
    rw [h4]
    rfl

/-- **C9 (amended)** `ValidatePacket` accepts a packet iff its magic is
"FVP", its type lies in {1,2,3,4}, its decoded major version is 1 (always
true, since `parseVersion` hardcodes major = 1), and its Length field
equals its payload size reduced modulo 2^16 (the code compares against
`uint16(len(payload))`); the checks run in the order magic, version, type,
length, and the first failing check determines the returned error. -/
theorem claim_C9_validate_amended (p : Packet) :
    (ValidatePacket p = none ↔
      (p.magic = (70, 86, 80) ∧ (parseVersion p.version).1 = 1 ∧
        (1 ≤ p.type ∧ p.type ≤ 4) ∧ p.length = p.payload.length % 65536)) ∧
    (ValidatePacket p = some .magic ↔ p.magic ≠ (70, 86, 80)) ∧
    (ValidatePacket p = some .version ↔
      (p.magic = (70, 86, 80) ∧ (parseVersion p.version).1 ≠ 1)) ∧
    (ValidatePacket p = some .ptype ↔
      (p.magic = (70, 86, 80) ∧ (parseVersion p.version).1 = 1 ∧
        ¬(1 ≤ p.type ∧ p.type ≤ 4))) ∧
    (ValidatePacket p = some .plength ↔
      (p.magic = (70, 86, 80) ∧ (parseVersion p.version).1 = 1 ∧
        (1 ≤ p.type ∧ p.type ≤ 4) ∧ p.length ≠ p.payload.length % 65536)) := by
  simp only [ValidatePacket, ValidateMagic, ValidateVersion, ValidateType,
    ValidateLength, parseVersion]
  by_cases hm : p.magic = (70, 86, 80) <;>
    by_cases ht : 1 ≤ p.type ∧ p.type ≤ 4 <;>
      by_cases hl : p.length = p.payload.length % 65536 <;>
        simp [hm, ht, hl]

/-! ### Key registry results -/

theorem loadKeysLoop_ok_iff (l : List ClientConfig) :
    ∀ acc, (∃ r, loadKeysLoop l acc = Except.ok r) ↔
      ∀ e ∈ l, ∃ k, hexDecode e.key = some k ∧ k.length = 32 := by
  induction l with
  | nil =>
      intro acc
      simp [loadKeysLoop]
  | cons e rest ih =>
      intro acc
      cases hk : hexDecode e.key with
      | none => simp [loadKeysLoop, hk]
      | some k =>
          by_cases hl : k.length = 32
          · simp [loadKeysLoop, hk, hl, ih]
          · simp [loadKeysLoop, hk, hl]

/-- **C7 counterexample** A configuration with two entries for id 1, both
carrying valid 64-hex-character keys, loads successfully — the claim says
it must return an error. The loaded map holds the second entry's key
(`"11…1"` decodes to 32 bytes of 0x11 = 17): the first key was silently
overwritten. -/
theorem claim_C7_counterexample :
    ((Config.mk [ClientConfig.mk 1 (List.replicate 64 '0'),
        ClientConfig.mk 1 (List.replicate 64 '1')]).clients.map
          ClientConfig.id = [1, 1]) ∧
    LoadKeysFromConfig
      (Config.mk [ClientConfig.mk 1 (List.replicate 64 '0'),
        ClientConfig.mk 1 (List.replicate 64 '1')]) =
      Except.ok [(1, List.replicate 32 17)] :=
  ⟨rfl, rfl⟩

/-- **C7 (amended)** Loading the configuration fails exactly when some
entry's key is not valid hex or does not decode to exactly 32 bytes;
duplicate ids are not detected — with every key valid, loading succeeds
even when two entries share an id (the later entry silently overwrites the
earlier one, as the counterexample exhibits). -/
theorem claim_C7_load_amended (cfg : Config) :
    (∃ r, LoadKeysFromConfig cfg = Except.ok r) ↔
      ∀ e ∈ cfg.clients, ∃ k, hexDecode e.key = some k ∧ k.length = 32 :=
  loadKeysLoop_ok_iff cfg.clients []

/-! ### Association-list and scan lemmas -/

theorem alookup_cons {α β : Type} [DecidableEq α] (k : α) (v : β)
    (rest : List (α × β)) (a : α) :
    alookup ((k, v) :: rest) a = if k = a then some v else alookup rest a :=
  rfl

theorem eraseKey_cons {α β : Type} [DecidableEq α] (k : α) (v : β)
    (rest : List (α × β)) (a : α) :
    eraseKey ((k, v) :: rest) a
      = if k = a then rest else (k, v) :: eraseKey rest a :=
  rfl

theorem setKey_cons {α β : Type} [DecidableEq α] (k : α) (v : β)
    (rest : List (α × β)) (a : α) (b : β) :
    setKey ((k, v) :: rest) a b
      = if k = a then (a, b) :: rest else (k, v) :: setKey rest a b :=
  rfl

theorem alookup_eq_none {α β : Type} [DecidableEq α] {l : List (α × β)}
    {a : α} : alookup l a = none ↔ a ∉ l.map Prod.fst := by
  induction l with
  | nil => simp [alookup]
  | cons p rest ih =>
      obtain ⟨k, v⟩ := p
      by_cases h : k = a
      · subst h
        simp [alookup]
      · simp only [alookup, h, if_false, List.map_cons, List.mem_cons, ih]
        constructor
        · rintro hn (rfl | hm)
          · exact h rfl
          · exact hn hm
        · intro hn hm
          exact hn (Or.inr hm)

theorem alookup_mem {α β : Type} [DecidableEq α] {l : List (α × β)} {a : α}
    {b : β} (h : alookup l a = some b) : (a, b) ∈ l := by
  induction l with
  | nil => simp [alookup] at h
  | cons p rest ih =>
      obtain ⟨k, v⟩ := p
      by_cases hk : k = a
      · subst hk
        rw [alookup_cons, if_pos rfl] at h
        injection h with h
        subst h
        exact List.mem_cons_self _ _
      · rw [alookup_cons, if_neg hk] at h
        exact List.mem_cons_of_mem _ (ih h)

theorem scanFirst_some {pred : Nat → Bool} :
    ∀ {n i x : Nat}, scanFirst pred i n = some x →
      pred x = true ∧ i ≤ x ∧ x < i + n ∧
        ∀ j, i ≤ j → j < x → pred j = false := by
  intro n
  induction n with
  | zero =>
      intro i x h
      simp [scanFirst] at h
  | succ m ih =>
      intro i x h
      unfold scanFirst at h
      by_cases hp : pred i
      · rw [if_pos hp] at h
        injection h with h
        subst h
        exact ⟨hp, Nat.le_refl _, by omega, fun j h1 h2 => by omega⟩
      · rw [if_neg hp] at h
        obtain ⟨h1, h2, h3, h4⟩ := ih h
        refine ⟨h1, by omega, by omega, ?_⟩
        intro j hj1 hj2
        rcases Nat.eq_or_lt_of_le hj1 with rfl | hlt
        · exact Bool.not_eq_true _ ▸ (by simpa using hp)
        · exact h4 j hlt hj2

theorem scanFirst_none {pred : Nat → Bool} :
    ∀ {n i : Nat}, scanFirst pred i n = none →
      ∀ j, i ≤ j → j < i + n → pred j = false := by
  intro n
  induction n with
  | zero =>
      intro i _ j h1 h2
      omega
  | succ m ih =>
      intro i h j h1 h2
      unfold scanFirst at h
      by_cases hp : pred i
      · rw [if_pos hp] at h
        exact absurd h (by simp)
      · rw [if_neg hp] at h
        rcases Nat.eq_or_lt_of_le h1 with rfl | hlt
        · simpa using hp
        · exact ih h j hlt (by omega)

theorem length_le_of_nodup_subset {α : Type} [DecidableEq α]
    {l₁ l₂ : List α} (hnd : l₁.Nodup) (hsub : ∀ x ∈ l₁, x ∈ l₂) :
    l₁.length ≤ l₂.length := by
  calc l₁.length = l₁.toFinset.card := (List.toFinset_card_of_nodup hnd).symm
    _ ≤ l₂.toFinset.card := by
        apply Finset.card_le_card
        intro x hx
        rw [List.mem_toFinset] at hx ⊢
        exact hsub x hx
    _ ≤ l₂.length := List.toFinset_card_le l₂

theorem eraseKey_sublist {α β : Type} [DecidableEq α]
    (l : List (α × β)) (a : α) : List.Sublist (eraseKey l a) l := by
  induction l with
  | nil => exact List.Sublist.refl _
  | cons p rest ih =>
      obtain ⟨k, v⟩ := p
      by_cases h : k = a
      · simp only [eraseKey, if_pos h]
        exact List.Sublist.cons _ (List.Sublist.refl rest)
      · simp only [eraseKey, if_neg h]
        exact List.Sublist.cons₂ _ ih

theorem eraseKey_map_comm {γ : Type} [DecidableEq γ] (g : ClientRec → γ)
    (l : List (Nat × ClientRec)) :
    ∀ (cid : Nat) (c : ClientRec),
      alookup l cid = some c →
      (l.map (fun p => g p.2)).Nodup →
      eraseKey (l.map (fun p => (g p.2, p.1))) (g c)
        = (eraseKey l cid).map (fun p => (g p.2, p.1)) := by
  induction l with
  | nil =>
      intro cid c h
      simp [alookup] at h
  | cons p rest ih =>
      intro cid c h hnd
      obtain ⟨k, v⟩ := p
      rw [List.map_cons, List.nodup_cons] at hnd
      obtain ⟨hv, hnd'⟩ := hnd
      by_cases hk : k = cid
      · subst hk
        rw [alookup_cons, if_pos rfl] at h
        injection h with h
        subst h
        simp [eraseKey_cons]
      · rw [alookup_cons, if_neg hk] at h
        have hgc : g c ∈ rest.map (fun p => g p.2) :=
          List.mem_map.mpr ⟨(cid, c), alookup_mem h, rfl⟩
        have hne : g v ≠ g c := fun he => hv (he ▸ hgc)
        simp only [List.map_cons, eraseKey_cons, if_neg hne, if_neg hk,
          List.cons.injEq, true_and]
        exact ih cid c h hnd'

theorem setKey_map_fst {α β : Type} [DecidableEq α]
    (l : List (α × β)) (a : α) (b : β) :
    (setKey l a b).map Prod.fst = l.map Prod.fst := by
  induction l with
  | nil => rfl
  | cons p rest ih =>
      obtain ⟨k, v⟩ := p
      by_cases h : k = a
      · subst h
        simp [setKey]
      · simp only [setKey, if_neg h, List.map_cons, List.cons.injEq, true_and]
        exact ih

theorem setKey_map_g {γ : Type} (g : ClientRec → γ)
    (l : List (Nat × ClientRec)) :
    ∀ (cid : Nat) (c c' : ClientRec),
      alookup l cid = some c → g c' = g c →
      (setKey l cid c').map (fun p => g p.2) = l.map (fun p => g p.2) := by
  induction l with
  | nil =>
      intro cid c c' h
      simp [alookup] at h
  | cons p rest ih =>
      intro cid c c' h hg
      obtain ⟨k, v⟩ := p
      by_cases hk : k = cid
      · subst hk
        rw [alookup_cons, if_pos rfl] at h
        injection h with h
        subst h
        simp [setKey_cons, hg]
      · rw [alookup_cons, if_neg hk] at h
        simp only [setKey_cons, if_neg hk, List.map_cons, List.cons.injEq,
          true_and]
        exact ih cid c c' h hg

theorem setKey_map_pair {γ : Type} (g : ClientRec → γ)
    (l : List (Nat × ClientRec)) :
    ∀ (cid : Nat) (c c' : ClientRec),
      alookup l cid = some c → g c' = g c →
      (setKey l cid c').map (fun p => (g p.2, p.1))
        = l.map (fun p => (g p.2, p.1)) := by
  induction l with
  | nil =>
      intro cid c c' h
      simp [alookup] at h
  | cons p rest ih =>
      intro cid c c' h hg
      obtain ⟨k, v⟩ := p
      by_cases hk : k = cid
      · subst hk
        rw [alookup_cons, if_pos rfl] at h
        injection h with h
        subst h
        simp [setKey_cons, hg]
      · rw [alookup_cons, if_neg hk] at h
        simp only [setKey_cons, if_neg hk, List.map_cons, List.cons.injEq,
          true_and]
        exact ih cid c c' h hg

theorem setKey_mem {α β : Type} [DecidableEq α] :
    ∀ {l : List (α × β)} {a : α} {b : β} {q : α × β},
      q ∈ setKey l a b → q ∈ l ∨ q = (a, b) := by
  intro l
  induction l with
  | nil =>
      intro a b q h
      simp [setKey] at h
  | cons p rest ih =>
      intro a b q h
      obtain ⟨k, v⟩ := p
      by_cases hk : k = a
      · subst hk
        rw [setKey_cons, if_pos rfl] at h
        rw [List.mem_cons] at h
        rcases h with rfl | h
        · exact Or.inr rfl
        · exact Or.inl (List.mem_cons_of_mem _ h)
      · rw [setKey_cons, if_neg hk] at h
        rw [List.mem_cons] at h
        rcases h with rfl | h
        · exact Or.inl (List.mem_cons_self _ _)
        · rcases ih h with h' | h'
          · exact Or.inl (List.mem_cons_of_mem _ h')
          · exact Or.inr h'

theorem alookup_setKey_self {α β : Type} [DecidableEq α] :
    ∀ {l : List (α × β)} {a : α} {b c : β},
      alookup l a = some c → alookup (setKey l a b) a = some b := by
  intro l
  induction l with
  | nil =>
      intro a b c h
      simp [alookup] at h
  | cons p rest ih =>
      intro a b c h
      obtain ⟨k, v⟩ := p
      by_cases hk : k = a
      · subst hk
        rw [setKey_cons, if_pos rfl, alookup_cons, if_pos rfl]
      · rw [alookup_cons, if_neg hk] at h
        rw [setKey_cons, if_neg hk, alookup_cons, if_neg hk]
        exact ih h

/-! ### Peer-table invariant preservation -/

set_option maxRecDepth 4000 in
theorem WF.length_le {s : CMState} (h : WF s) : s.clients.length ≤ 254 := by
  obtain ⟨_, _, _, hnd2, _, hrange⟩ := h
  have hips : s.clients.map (fun p => p.2.ip)
      = (s.clients.map (fun p => p.2.ip.2.2.2)).map (fun o => (10, 0, 0, o)) := by
    rw [List.map_map]
    apply List.map_congr_left
    intro p hp
    obtain ⟨-, o, -, -, hoe⟩ := hrange p hp
    simp [hoe]
  have hnd4 : (s.clients.map (fun p => p.2.ip.2.2.2)).Nodup := by
    rw [hips] at hnd2
    exact hnd2.of_map _
  have hsub : ∀ x ∈ s.clients.map (fun p => p.2.ip.2.2.2),
      x ∈ (List.range 256).filter (fun o => decide (2 ≤ o)) := by
    intro x hx
    rw [List.mem_map] at hx
    obtain ⟨p, hp, rfl⟩ := hx
    obtain ⟨-, o, ho1, ho2, hoe⟩ := hrange p hp
    rw [List.mem_filter, List.mem_range]
    simp [hoe]
    omega
  have hle := length_le_of_nodup_subset hnd4 hsub
  rw [List.length_map] at hle
  have hflen : ((List.range 256).filter (fun o => decide (2 ≤ o))).length = 254 := by
    decide
  omega

set_option maxRecDepth 4000 in
theorem WF.findNextClientID_ne_zero {s : CMState} (h : WF s) :
    findNextClientID s ≠ 0 := by
  have hlen254 := WF.length_le h
  intro h0
  unfold findNextClientID at h0
  cases hscan : scanFirst (fun i => (alookup s.clients i).isNone) 1 255 with
  | some x =>
      rw [hscan] at h0
      obtain ⟨-, hx1, -, -⟩ := scanFirst_some hscan
      simp only [Option.getD_some] at h0
      omega
  | none =>
      have hall := scanFirst_none hscan
      have hsub : ∀ j ∈ (List.range 256).filter (fun o => decide (1 ≤ o)),
          j ∈ s.clients.map Prod.fst := by
        intro j hj
        rw [List.mem_filter, List.mem_range] at hj
        obtain ⟨hj2, hj1⟩ := hj
        have hj1 : 1 ≤ j := by simpa using hj1
        have hpf := hall j hj1 (by omega)
        cases hl : alookup s.clients j with
        | none =>
            rw [hl] at hpf
            simp at hpf
        | some b => exact List.mem_map.mpr ⟨(j, b), alookup_mem hl, rfl⟩
      have hnodup : ((List.range 256).filter (fun o => decide (1 ≤ o))).Nodup :=
        (List.nodup_range 256).filter _
      have hle := length_le_of_nodup_subset hnodup hsub
      have hflen : ((List.range 256).filter (fun o => decide (1 ≤ o))).length = 255 := by
        decide
      rw [List.length_map] at hle
      omega

theorem map_fst_map_pair {γ : Type} (g : ClientRec → γ)
    (l : List (Nat × ClientRec)) :
    (l.map (fun p => (g p.2, p.1))).map Prod.fst = l.map (fun p => g p.2) := by
  rw [List.map_map]
  rfl

theorem WF_AddClient {s : CMState} (h : WF s) (key : List Nat)
    (addr : String) (now : Nat) : WF (AddClient s key addr now).1 := by
  unfold AddClient
  by_cases h1 : 256 ≤ s.clients.length
  · rw [if_pos h1]
    exact h
  · rw [if_neg h1]
    by_cases h2 : (alookup s.keyToClient key).isSome = true
    · rw [if_pos h2]
      exact h
    · rw [if_neg h2]
      dsimp only
      rw [if_neg (WF.findNextClientID_ne_zero h)]
      cases hip : assignNextIP s with
      | none => exact h
      | some ip =>
          have hscanx : ∃ x,
              scanFirst (fun i => (alookup s.clients i).isNone) 1 255
                = some x := by
            cases hsc : scanFirst (fun i => (alookup s.clients i).isNone) 1 255 with
            | none =>
                exfalso
                apply WF.findNextClientID_ne_zero h
                unfold findNextClientID
                rw [hsc]
                rfl
            | some x => exact ⟨x, rfl⟩
          obtain ⟨x, hx⟩ := hscanx
          have hcid : findNextClientID s = x := by
            unfold findNextClientID
            rw [hx]
            rfl
          obtain ⟨hpx, hx1, hx2, -⟩ := scanFirst_some hx
          have hxnone : alookup s.clients x = none := by
            cases hq : alookup s.clients x with
            | none => rfl
            | some b =>
                rw [hq] at hpx
                simp at hpx
          have hxnotin : x ∉ s.clients.map Prod.fst :=
            alookup_eq_none.mp hxnone
          have hipo : ∃ o,
              scanFirst
                (fun o => (alookup s.ipToClient (10, 0, 0, o)).isNone) 2 254
                = some o ∧ ip = (10, 0, 0, o) := by
            unfold assignNextIP at hip
            cases hsc : scanFirst
                (fun o => (alookup s.ipToClient (10, 0, 0, o)).isNone) 2 254 with
            | none =>
                rw [hsc] at hip
                simp at hip
            | some o =>
                rw [hsc] at hip
                injection hip with hip
                exact ⟨o, rfl, hip.symm⟩
          obtain ⟨o, ho, hipeq⟩ := hipo
          obtain ⟨hpo, ho1, ho2, -⟩ := scanFirst_some ho
          obtain ⟨e1, e2, n1, n2, n3, rng⟩ := h
          have hipnone : alookup s.ipToClient (10, 0, 0, o) = none := by
            cases hq : alookup s.ipToClient (10, 0, 0, o) with
            | none => rfl
            | some b =>
                rw [hq] at hpo
                simp at hpo
          have hipnotin : ip ∉ s.clients.map (fun p => p.2.ip) := by
            rw [hipeq, ← map_fst_map_pair (fun r => r.ip) s.clients, ← e1]
            exact alookup_eq_none.mp hipnone
          have hkeynone : alookup s.keyToClient key = none := by
            cases hq : alookup s.keyToClient key with
            | none => rfl
            | some b =>
                rw [hq] at h2
                simp at h2
          have hkeynotin : key ∉ s.clients.map (fun p => p.2.key) := by
            rw [← map_fst_map_pair (fun r => r.key) s.clients, ← e2]
            exact alookup_eq_none.mp hkeynone
          rw [hcid]
          refine ⟨?_, ?_, ?_, ?_, ?_, ?_⟩
          · dsimp only
            rw [List.map_cons, e1]
          · dsimp only
            rw [List.map_cons, e2]
          · dsimp only
            rw [List.map_cons]
            exact List.nodup_cons.mpr ⟨hxnotin, n1⟩
          · dsimp only
            rw [List.map_cons]
            exact List.nodup_cons.mpr ⟨hipnotin, n2⟩
          · dsimp only
            rw [List.map_cons]
            exact List.nodup_cons.mpr ⟨hkeynotin, n3⟩
          · intro p hp
            rw [List.mem_cons] at hp
            rcases hp with rfl | hp
            · exact ⟨⟨hx1, by omega⟩, o, ho1, by omega, hipeq⟩
            · exact rng p hp

theorem WF_evictOne {s : CMState} (h : WF s) (clientID : Nat) :
    WF (evictOne s clientID) := by
  unfold evictOne
  cases hc : alookup s.clients clientID with
  | none => exact h
  | some c =>
      obtain ⟨e1, e2, n1, n2, n3, rng⟩ := h
      refine ⟨?_, ?_, ?_, ?_, ?_, ?_⟩
      · dsimp only
        rw [e1]
        exact eraseKey_map_comm (fun r => r.ip) s.clients clientID c hc n2
      · dsimp only
        rw [e2]
        exact eraseKey_map_comm (fun r => r.key) s.clients clientID c hc n3
      · exact List.Nodup.sublist ((eraseKey_sublist _ _).map _) n1
      · exact List.Nodup.sublist ((eraseKey_sublist _ _).map _) n2
      · exact List.Nodup.sublist ((eraseKey_sublist _ _).map _) n3
      · intro p hp
        exact rng p ((eraseKey_sublist s.clients clientID).subset hp)

theorem WF_RemoveClient {s : CMState} (h : WF s) (clientID : Nat) :
    WF (RemoveClient s clientID).1 := by
  unfold RemoveClient
  cases hc : alookup s.clients clientID with
  | none => exact h
  | some c => exact WF_evictOne h clientID

theorem WF_UpdateClientActivity {s : CMState} (h : WF s)
    (clientID sequence now : Nat) :
    WF (UpdateClientActivity s clientID sequence now).1 := by
  unfold UpdateClientActivity
  cases hc : alookup s.clients clientID with
  | none => exact h
  | some c =>
      dsimp only
      by_cases hs : sequence ≤ c.lastSeq
      · rw [if_pos hs]
        exact h
      · rw [if_neg hs]
        obtain ⟨e1, e2, n1, n2, n3, rng⟩ := h
        refine ⟨?_, ?_, ?_, ?_, ?_, ?_⟩
        · dsimp only
          rw [e1]
          exact (setKey_map_pair (fun r => r.ip) s.clients clientID c
            { c with lastSeen := now, lastSeq := sequence } hc rfl).symm
        · dsimp only
          rw [e2]
          exact (setKey_map_pair (fun r => r.key) s.clients clientID c
            { c with lastSeen := now, lastSeq := sequence } hc rfl).symm
        · dsimp only
          rw [setKey_map_fst]
          exact n1
        · dsimp only
          rw [setKey_map_g (fun r => r.ip) s.clients clientID c
            { c with lastSeen := now, lastSeq := sequence } hc rfl]
          exact n2
        · dsimp only
          rw [setKey_map_g (fun r => r.key) s.clients clientID c
            { c with lastSeen := now, lastSeq := sequence } hc rfl]
          exact n3
        · intro p hp
          rcases setKey_mem hp with hz | rfl
          · exact rng p hz
          · obtain ⟨hb, o, ho1, ho2, hoe⟩ := rng (clientID, c) (alookup_mem hc)
            exact ⟨hb, o, ho1, ho2, hoe⟩

theorem WF_foldl_evictOne (ids : List Nat) :
    ∀ {s : CMState}, WF s → WF (ids.foldl evictOne s) := by
  induction ids with
  | nil =>
      intro s h
      exact h
  | cons i rest ih =>
      intro s h
      exact ih (WF_evictOne h i)

theorem WF_CheckTimeouts {s : CMState} (h : WF s) (now : Nat) :
    WF (CheckTimeouts s now) := by
  unfold CheckTimeouts
  exact WF_foldl_evictOne _ h

/-- Every reachable peer-table state satisfies the representation
invariant. -/
theorem reachable_wf {s : CMState} (h : Reachable s) : WF s := by
  induction h with
  | init t => exact ⟨rfl, rfl, List.nodup_nil, List.nodup_nil, List.nodup_nil, by simp⟩
  | add key addr now _ ih => exact WF_AddClient ih key addr now
  | remove clientID _ ih => exact WF_RemoveClient ih clientID
  | update clientID sequence now _ ih =>
      exact WF_UpdateClientActivity ih clientID sequence now
  | check now _ ih => exact WF_CheckTimeouts ih now

theorem alookup_map_pair {γ : Type} [DecidableEq γ] (g : ClientRec → γ)
    (l : List (Nat × ClientRec)) :
    ∀ (id : Nat) (c : ClientRec), (id, c) ∈ l →
      (l.map (fun p => g p.2)).Nodup →
      alookup (l.map (fun p => (g p.2, p.1))) (g c) = some id := by
  induction l with
  | nil =>
      intro id c h
      simp at h
  | cons p rest ih =>
      intro id c hm hnd
      obtain ⟨k, v⟩ := p
      rw [List.map_cons, List.nodup_cons] at hnd
      obtain ⟨hv, hnd'⟩ := hnd
      rw [List.map_cons, alookup_cons]
      by_cases hg : g v = g c
      · rw [if_pos hg]
        rcases List.mem_cons.mp hm with heq | hmem
        · injection heq with h1 h2
          rw [h1]
        · exact absurd (hg ▸ List.mem_map.mpr ⟨(id, c), hmem, rfl⟩) hv
      · rw [if_neg hg]
        rcases List.mem_cons.mp hm with heq | hmem
        · injection heq with h1 h2
          exact absurd (congrArg g h2.symm) hg
        · exact ih id c hmem hnd'

/-- **C10** Index consistency as a reachable-state invariant (every
peer-table operation preserves it, since `Reachable` is closed under all
four operations): each live client is indexed by its IP and by its key
(standing for the hex fingerprint the Go map uses), and every entry of
either auxiliary map points back to a live client carrying that IP or
key. -/
theorem claim_C10_index_consistency {s : CMState} (h : Reachable s) :
    (∀ id c, (id, c) ∈ s.clients →
      alookup s.ipToClient c.ip = some id ∧
      alookup s.keyToClient c.key = some id) ∧
    (∀ ip id, (ip, id) ∈ s.ipToClient →
      ∃ c, (id, c) ∈ s.clients ∧ c.ip = ip) ∧
    (∀ k id, (k, id) ∈ s.keyToClient →
      ∃ c, (id, c) ∈ s.clients ∧ c.key = k) := by
  obtain ⟨e1, e2, n1, n2, n3, rng⟩ := reachable_wf h
  refine ⟨?_, ?_, ?_⟩
  · intro id c hm
    constructor
    · rw [e1]
      exact alookup_map_pair (fun r => r.ip) s.clients id c hm n2
    · rw [e2]
      exact alookup_map_pair (fun r => r.key) s.clients id c hm n3
  · intro ip id hm
    rw [e1, List.mem_map] at hm
    obtain ⟨⟨pid, pc⟩, hp, heq⟩ := hm
    injection heq with h1 h2
    subst h1
    subst h2
    exact ⟨pc, hp, rfl⟩
  · intro k id hm
    rw [e2, List.mem_map] at hm
    obtain ⟨⟨pid, pc⟩, hp, heq⟩ := hm
    injection heq with h1 h2
    subst h1
    subst h2
    exact ⟨pc, hp, rfl⟩

/-- **C10 witness**: the index-consistency invariant evaluated at the
concrete state reached by one authentication from the empty table. -/
theorem claim_C10_index_consistency_witness :
    Reachable (AddClient ⟨[], [], [], 1800⟩ (List.replicate 32 9)
      "10.1.1.1:40000" 100).1 ∧
    ((∀ id c, (id, c) ∈ (AddClient ⟨[], [], [], 1800⟩ (List.replicate 32 9)
        "10.1.1.1:40000" 100).1.clients →
      alookup (AddClient ⟨[], [], [], 1800⟩ (List.replicate 32 9)
        "10.1.1.1:40000" 100).1.ipToClient c.ip = some id ∧
      alookup (AddClient ⟨[], [], [], 1800⟩ (List.replicate 32 9)
        "10.1.1.1:40000" 100).1.keyToClient c.key = some id) ∧
    (∀ ip id, (ip, id) ∈ (AddClient ⟨[], [], [], 1800⟩ (List.replicate 32 9)
        "10.1.1.1:40000" 100).1.ipToClient →
      ∃ c, (id, c) ∈ (AddClient ⟨[], [], [], 1800⟩ (List.replicate 32 9)
        "10.1.1.1:40000" 100).1.clients ∧ c.ip = ip) ∧
    (∀ k id, (k, id) ∈ (AddClient ⟨[], [], [], 1800⟩ (List.replicate 32 9)
        "10.1.1.1:40000" 100).1.keyToClient →
      ∃ c, (id, c) ∈ (AddClient ⟨[], [], [], 1800⟩ (List.replicate 32 9)
        "10.1.1.1:40000" 100).1.clients ∧ c.key = k)) :=
  ⟨Reachable.add _ _ _ (Reachable.init 1800),
   claim_C10_index_consistency (Reachable.add _ _ _ (Reachable.init 1800))⟩

/-- **C5** After any sequence of authenticate/evict operations: ids, inner
IPs and key fingerprints are pairwise unique across live entries; a newly
admitted peer receives the smallest unused id in 1..255 and the smallest
unused inner IP in 10.0.0.2..10.0.0.255; and authentication returns the
Full error (`ErrMaxClientsReached`) exactly when 255 live entries exist.
The final conjunct records why the biconditional holds vacuously: only 254
inner IPs exist, so a reachable table never holds more than 254 entries and
`ErrMaxClientsReached` is never returned (at 254 entries the failure is the
IP-exhaustion error instead). -/
theorem claim_C5_peer_table_invariants {s : CMState} (h : Reachable s) :
    ((s.clients.map Prod.fst).Nodup ∧
      (s.clients.map (fun p => p.2.ip)).Nodup ∧
      (s.clients.map (fun p => p.2.key)).Nodup) ∧
    (∀ key addr now cid c,
      (AddClient s key addr now).2 = Except.ok (cid, c) →
        ((1 ≤ cid ∧ cid ≤ 255) ∧ alookup s.clients cid = none ∧
          (∀ j, 1 ≤ j → j < cid → alookup s.clients j ≠ none)) ∧
        (∃ o, 2 ≤ o ∧ o ≤ 255 ∧ c.ip = (10, 0, 0, o) ∧
          alookup s.ipToClient c.ip = none ∧
          (∀ u, 2 ≤ u → u < o →
            alookup s.ipToClient (10, 0, 0, u) ≠ none))) ∧
    (∀ key addr now,
      (AddClient s key addr now).2 = Except.error CMErr.maxClients ↔
        s.clients.length = 255) ∧
    s.clients.length ≤ 254 := by
  have hwf := reachable_wf h
  obtain ⟨e1, e2, n1, n2, n3, rng⟩ := reachable_wf h
  have hlen := WF.length_le hwf
  refine ⟨⟨n1, n2, n3⟩, ?_, ?_, hlen⟩
  · intro key addr now cid c heq
    unfold AddClient at heq
    rw [if_neg (by omega : ¬ 256 ≤ s.clients.length)] at heq
    by_cases h2 : (alookup s.keyToClient key).isSome = true
    · rw [if_pos h2] at heq
      exact absurd heq (by simp)
    · rw [if_neg h2] at heq
      dsimp only at heq
      rw [if_neg (WF.findNextClientID_ne_zero hwf)] at heq
      cases hip : assignNextIP s with
      | none =>
          rw [hip] at heq
          exact absurd heq (by simp)
      | some ip =>
          rw [hip] at heq
          dsimp only at heq
          injection heq with heq
          injection heq with hcid hc
          subst hcid
          subst hc
          have hscanx : ∃ x,
              scanFirst (fun i => (alookup s.clients i).isNone) 1 255
                = some x := by
            cases hsc : scanFirst (fun i => (alookup s.clients i).isNone) 1 255 with
            | none =>
                exfalso
                apply WF.findNextClientID_ne_zero hwf
                unfold findNextClientID
                rw [hsc]
                rfl
            | some x => exact ⟨x, rfl⟩
          obtain ⟨x, hx⟩ := hscanx
          have hcid : findNextClientID s = x := by
            unfold findNextClientID
            rw [hx]
            rfl
          obtain ⟨hpx, hx1, hx2, hxmin⟩ := scanFirst_some hx
          have hxnone : alookup s.clients x = none := by
            cases hq : alookup s.clients x with
            | none => rfl
            | some b =>
                rw [hq] at hpx
                simp at hpx
          have hipo : ∃ o,
              scanFirst
                (fun o => (alookup s.ipToClient (10, 0, 0, o)).isNone) 2 254
                = some o ∧ ip = (10, 0, 0, o) := by
            unfold assignNextIP at hip
            cases hsc : scanFirst
                (fun o => (alookup s.ipToClient (10, 0, 0, o)).isNone) 2 254 with
            | none =>
                rw [hsc] at hip
                simp at hip
            | some o =>
                rw [hsc] at hip
                injection hip with hip
                exact ⟨o, rfl, hip.symm⟩
          obtain ⟨o, ho, hipeq⟩ := hipo
          obtain ⟨hpo, ho1, ho2, homin⟩ := scanFirst_some ho
          have hipnone : alookup s.ipToClient (10, 0, 0, o) = none := by
            cases hq : alookup s.ipToClient (10, 0, 0, o) with
            | none => rfl
            | some b =>
                rw [hq] at hpo
                simp at hpo
          rw [hcid]
          refine ⟨⟨⟨hx1, by omega⟩, hxnone, ?_⟩, o, ho1, by omega, hipeq, ?_, ?_⟩
          · intro j hj1 hj2 habs
            have := hxmin j hj1 hj2
            rw [habs] at this
            simp at this
          · rw [hipeq]
            exact hipnone
          · intro u hu1 hu2 habs
            have := homin u hu1 hu2
            rw [habs] at this
            simp at this
  · intro key addr now
    constructor
    · intro heq
      exfalso
      unfold AddClient at heq
      rw [if_neg (by omega : ¬ 256 ≤ s.clients.length)] at heq
      by_cases h2 : (alookup s.keyToClient key).isSome = true
      · rw [if_pos h2] at heq
        injection heq with heq
        exact CMErr.noConfusion heq
      · rw [if_neg h2] at heq
        dsimp only at heq
        rw [if_neg (WF.findNextClientID_ne_zero hwf)] at heq
        cases hip : assignNextIP s with
        | none =>
            rw [hip] at heq
            injection heq with heq
            exact CMErr.noConfusion heq
        | some ip =>
            rw [hip] at heq
            exact Except.noConfusion heq
    · intro hl
      omega

/-- **C5 witness**: the invariant discharged at the concrete reachable
state produced by one authentication from the empty table. -/
theorem claim_C5_peer_table_invariants_witness :
    Reachable (AddClient ⟨[], [], [], 1800⟩ (List.replicate 32 11)
      "10.2.2.2:40000" 7).1 ∧
    (((AddClient ⟨[], [], [], 1800⟩ (List.replicate 32 11)
        "10.2.2.2:40000" 7).1.clients.map Prod.fst).Nodup ∧
      ((AddClient ⟨[], [], [], 1800⟩ (List.replicate 32 11)
        "10.2.2.2:40000" 7).1.clients.map (fun p => p.2.ip)).Nodup ∧
      ((AddClient ⟨[], [], [], 1800⟩ (List.replicate 32 11)
        "10.2.2.2:40000" 7).1.clients.map (fun p => p.2.key)).Nodup) ∧
    (∀ key addr now cid c,
      (AddClient (AddClient ⟨[], [], [], 1800⟩ (List.replicate 32 11)
          "10.2.2.2:40000" 7).1 key addr now).2 = Except.ok (cid, c) →
        ((1 ≤ cid ∧ cid ≤ 255) ∧
          alookup (AddClient ⟨[], [], [], 1800⟩ (List.replicate 32 11)
            "10.2.2.2:40000" 7).1.clients cid = none ∧
          (∀ j, 1 ≤ j → j < cid →
            alookup (AddClient ⟨[], [], [], 1800⟩ (List.replicate 32 11)
              "10.2.2.2:40000" 7).1.clients j ≠ none)) ∧
        (∃ o, 2 ≤ o ∧ o ≤ 255 ∧ c.ip = (10, 0, 0, o) ∧
          alookup (AddClient ⟨[], [], [], 1800⟩ (List.replicate 32 11)
            "10.2.2.2:40000" 7).1.ipToClient c.ip = none ∧
          (∀ u, 2 ≤ u → u < o →
            alookup (AddClient ⟨[], [], [], 1800⟩ (List.replicate 32 11)
              "10.2.2.2:40000" 7).1.ipToClient (10, 0, 0, u) ≠ none))) ∧
    (∀ key addr now,
      (AddClient (AddClient ⟨[], [], [], 1800⟩ (List.replicate 32 11)
          "10.2.2.2:40000" 7).1 key addr now).2
          = Except.error CMErr.maxClients ↔
        (AddClient ⟨[], [], [], 1800⟩ (List.replicate 32 11)
          "10.2.2.2:40000" 7).1.clients.length = 255) ∧
    (AddClient ⟨[], [], [], 1800⟩ (List.replicate 32 11)
      "10.2.2.2:40000" 7).1.clients.length ≤ 254 :=
  ⟨Reachable.add _ _ _ (Reachable.init 1800),
   claim_C5_peer_table_invariants (Reachable.add _ _ _ (Reachable.init 1800))⟩

/-- **C3** For a live peer, inbound admission (`UpdateClientActivity`)
succeeds iff the sequence strictly exceeds the recorded `LastSeq`; on
success `LastSeq` becomes the sequence and `LastSeen` the current time,
and the rest of the state is untouched; on failure the state is unchanged;
and a second call with the same sequence always fails. -/
theorem claim_C3_replay_rejection {s : CMState} {clientID : Nat}
    {c : ClientRec} (hc : alookup s.clients clientID = some c)
    (sequence now : Nat) :
    ((UpdateClientActivity s clientID sequence now).2 = Except.ok () ↔
      c.lastSeq < sequence) ∧
    (c.lastSeq < sequence →
      (UpdateClientActivity s clientID sequence now).1 =
        { s with clients := (setKey s.clients clientID
            { c with lastSeen := now, lastSeq := sequence }) }) ∧
    (¬ c.lastSeq < sequence →
      (UpdateClientActivity s clientID sequence now).1 = s) ∧
    (∀ now2,
      (UpdateClientActivity (UpdateClientActivity s clientID sequence now).1
        clientID sequence now2).2 ≠ Except.ok ()) := by
  by_cases hs : sequence ≤ c.lastSeq
  · have hres : UpdateClientActivity s clientID sequence now
        = (s, Except.error CMErr.invalidSequence) := by
      unfold UpdateClientActivity
      rw [hc]
      dsimp only
      rw [if_pos hs]
    refine ⟨?_, ?_, ?_, ?_⟩
    · rw [hres]
      constructor
      · intro habs
        exact absurd habs (by simp)
      · intro hlt
        exact absurd hlt (by omega)
    · intro hlt
      exact absurd hlt (by omega)
    · intro _
      rw [hres]
    · intro now2
      rw [hres]
      have hres2 : UpdateClientActivity s clientID sequence now2
          = (s, Except.error CMErr.invalidSequence) := by
        unfold UpdateClientActivity
        rw [hc]
        dsimp only
        rw [if_pos hs]
      dsimp only
      rw [hres2]
      simp
  · have hres : UpdateClientActivity s clientID sequence now
        = ({ s with clients := (setKey s.clients clientID
              { c with lastSeen := now, lastSeq := sequence }) },
          Except.ok ()) := by
      unfold UpdateClientActivity
      rw [hc]
      dsimp only
      rw [if_neg hs]
    refine ⟨?_, ?_, ?_, ?_⟩
    · rw [hres]
      constructor
      · intro _
        omega
      · intro _
        rfl
    · intro _
      rw [hres]
    · intro hn
      exact absurd (by omega : c.lastSeq < sequence) hn
    · intro now2
      rw [hres]
      have hc2 : alookup (setKey s.clients clientID
          { c with lastSeen := now, lastSeq := sequence }) clientID
          = some { c with lastSeen := now, lastSeq := sequence } :=
        alookup_setKey_self hc
      unfold UpdateClientActivity
      dsimp only
      rw [hc2]
      dsimp only
      rw [if_pos (show sequence ≤
        ({ c with lastSeen := now, lastSeq := sequence } : ClientRec).lastSeq
          from Nat.le_refl sequence)]
      simp

/-- **C3 witness**: admission at a concrete live peer with `LastSeq = 2`
and an arriving sequence 9, discharged through the theorem. -/
theorem claim_C3_replay_rejection_witness :
    alookup (⟨[(1, ⟨(10, 0, 0, 2), List.replicate 32 1, "addrW", true, 0, 2⟩)],
        [((10, 0, 0, 2), 1)], [(List.replicate 32 1, 1)], 1800⟩ :
        CMState).clients 1
      = some ⟨(10, 0, 0, 2), List.replicate 32 1, "addrW", true, 0, 2⟩ ∧
    (((UpdateClientActivity ⟨[(1, ⟨(10, 0, 0, 2), List.replicate 32 1,
        "addrW", true, 0, 2⟩)], [((10, 0, 0, 2), 1)],
        [(List.replicate 32 1, 1)], 1800⟩ 1 9 50).2 = Except.ok () ↔
      (⟨(10, 0, 0, 2), List.replicate 32 1, "addrW", true, 0, 2⟩ :
        ClientRec).lastSeq < 9) ∧
    ((⟨(10, 0, 0, 2), List.replicate 32 1, "addrW", true, 0, 2⟩ :
        ClientRec).lastSeq < 9 →
      (UpdateClientActivity ⟨[(1, ⟨(10, 0, 0, 2), List.replicate 32 1,
          "addrW", true, 0, 2⟩)], [((10, 0, 0, 2), 1)],
          [(List.replicate 32 1, 1)], 1800⟩ 1 9 50).1 =
        { (⟨[(1, ⟨(10, 0, 0, 2), List.replicate 32 1, "addrW", true, 0, 2⟩)],
            [((10, 0, 0, 2), 1)], [(List.replicate 32 1, 1)], 1800⟩ :
            CMState) with
          clients :=
            setKey
              [(1, ⟨(10, 0, 0, 2), List.replicate 32 1, "addrW", true, 0, 2⟩)]
              1
              { (⟨(10, 0, 0, 2), List.replicate 32 1, "addrW", true, 0, 2⟩ :
                  ClientRec) with lastSeen := 50, lastSeq := 9 } }) ∧
    (¬ (⟨(10, 0, 0, 2), List.replicate 32 1, "addrW", true, 0, 2⟩ :
        ClientRec).lastSeq < 9 →
      (UpdateClientActivity ⟨[(1, ⟨(10, 0, 0, 2), List.replicate 32 1,
          "addrW", true, 0, 2⟩)], [((10, 0, 0, 2), 1)],
          [(List.replicate 32 1, 1)], 1800⟩ 1 9 50).1 =
        ⟨[(1, ⟨(10, 0, 0, 2), List.replicate 32 1, "addrW", true, 0, 2⟩)],
          [((10, 0, 0, 2), 1)], [(List.replicate 32 1, 1)], 1800⟩) ∧
    (∀ now2,
      (UpdateClientActivity (UpdateClientActivity ⟨[(1, ⟨(10, 0, 0, 2),
          List.replicate 32 1, "addrW", true, 0, 2⟩)], [((10, 0, 0, 2), 1)],
          [(List.replicate 32 1, 1)], 1800⟩ 1 9 50).1 1 9 now2).2
        ≠ Except.ok ())) :=
  ⟨rfl,
   @claim_C3_replay_rejection
     ⟨[(1, ⟨(10, 0, 0, 2), List.replicate 32 1, "addrW", true, 0, 2⟩)],
       [((10, 0, 0, 2), 1)], [(List.replicate 32 1, 1)], 1800⟩ 1
     ⟨(10, 0, 0, 2), List.replicate 32 1, "addrW", true, 0, 2⟩ rfl 9 50⟩

/-- **C6** A Data packet for a live peer whose sequence is admitted but
whose payload fails AEAD decryption is dropped with nothing handed to the
TUN, and the only state change is the admission itself: `LastSeq` and
`LastSeen` were already advanced before decryption was attempted, and the
auxiliary maps and every other field are untouched (the resulting state is
`s` with exactly that one record updated). Stated for an arbitrary
decryption function returning failure, covering every AEAD open failure. -/
theorem claim_C6_aead_failure_frame
    (decrypt : List Nat → List Nat → Nat → Option (List Nat))
    {s : CMState} {data : List Nat} {pkt : Packet} {c : ClientRec}
    (now : Nat)
    (hd : DecodePacket data = some pkt)
    (ht : pkt.type = 1)
    (hc : alookup s.clients pkt.clientID = some c)
    (hseq : c.lastSeq < pkt.sequence)
    (hfail : decrypt pkt.payload c.key pkt.sequence = none) :
    ProcessPacket decrypt s now data =
      ({ s with clients := (setKey s.clients pkt.clientID
            { c with lastSeen := now, lastSeq := pkt.sequence }) },
        none) := by
  have hupd : UpdateClientActivity s pkt.clientID pkt.sequence now =
      ({ s with clients := (setKey s.clients pkt.clientID
            { c with lastSeen := now, lastSeq := pkt.sequence }) },
        Except.ok ()) := by
    unfold UpdateClientActivity
    rw [hc]
    dsimp only
    rw [if_neg (by omega)]
  unfold ProcessPacket
  rw [hd]
  dsimp only
  unfold GetClient
  rw [hc]
  dsimp only
  rw [hupd]
  dsimp only
  rw [hfail]

/-- **C6 witness**: a concrete Data packet with sequence 5 for a live peer
at `LastSeq = 2` whose decryption fails; the state advances to
`LastSeq = 5, LastSeen = 50` and nothing is written to the TUN. -/
theorem claim_C6_aead_failure_frame_witness :
    DecodePacket [70, 86, 80, 1, 1, 5, 0, 0, 0, 0, 0, 0] =
      some { magic := (70, 86, 80), type := 1, clientID := 1, sequence := 5,
             length := 0, version := 0, payload := [] } ∧
    ({ magic := (70, 86, 80), type := 1, clientID := 1, sequence := 5,
       length := 0, version := 0, payload := [] } : Packet).type = 1 ∧
    alookup (⟨[(1, ⟨(10, 0, 0, 2), List.replicate 32 3, "addrV", true, 0, 2⟩)],
        [((10, 0, 0, 2), 1)], [(List.replicate 32 3, 1)], 1800⟩ :
        CMState).clients
      ({ magic := (70, 86, 80), type := 1, clientID := 1, sequence := 5,
         length := 0, version := 0, payload := [] } : Packet).clientID
      = some ⟨(10, 0, 0, 2), List.replicate 32 3, "addrV", true, 0, 2⟩ ∧
    (⟨(10, 0, 0, 2), List.replicate 32 3, "addrV", true, 0, 2⟩ :
      ClientRec).lastSeq <
      ({ magic := (70, 86, 80), type := 1, clientID := 1, sequence := 5,
         length := 0, version := 0, payload := [] } : Packet).sequence ∧
    ProcessPacket (fun _ _ _ => (none : Option (List Nat)))
      ⟨[(1, ⟨(10, 0, 0, 2), List.replicate 32 3, "addrV", true, 0, 2⟩)],
        [((10, 0, 0, 2), 1)], [(List.replicate 32 3, 1)], 1800⟩ 50
      [70, 86, 80, 1, 1, 5, 0, 0, 0, 0, 0, 0] =
      ({ (⟨[(1, ⟨(10, 0, 0, 2), List.replicate 32 3, "addrV", true, 0, 2⟩)],
          [((10, 0, 0, 2), 1)], [(List.replicate 32 3, 1)], 1800⟩ :
          CMState) with
        clients :=
          setKey
            [(1, ⟨(10, 0, 0, 2), List.replicate 32 3, "addrV", true, 0, 2⟩)]
            ({ magic := (70, 86, 80), type := 1, clientID := 1, sequence := 5,
               length := 0, version := 0, payload := [] } : Packet).clientID
            { (⟨(10, 0, 0, 2), List.replicate 32 3, "addrV", true, 0, 2⟩ :
                ClientRec) with
              lastSeen := 50,
              lastSeq :=
                ({ magic := (70, 86, 80), type := 1, clientID := 1,
                   sequence := 5, length := 0, version := 0,
                   payload := [] } : Packet).sequence } }, none) :=
  ⟨by decide, rfl, by decide, by decide,
   claim_C6_aead_failure_frame (fun _ _ _ => none) 50 (by decide) rfl
     (by decide) (by decide) rfl⟩

/-- **C4 counterexample** Registry holds key `k` for id 1; a first Auth
packet with claimed id 1 admits the peer. While that entry is live, a
second Auth packet with the same claimed id (the peer re-authenticating
from a new address) does **not** replace the session as the claim states:
`AddClient` rejects the duplicate key fingerprint with
`ErrClientAlreadyExists`, authentication fails silently, and the table is
completely unchanged (no address update, no sequence reset). -/
theorem claim_C4_counterexample :
    ((alookup (handleAuthPacket ⟨[], [], [], 1800⟩
        [(1, List.replicate 32 5)]
        { magic := (70, 86, 80), type := 2, clientID := 1, sequence := 0,
          length := 0, version := 0, payload := [] } "addrA" 100
        (List.replicate 32 6)).1.clients 1).isSome = true) ∧
    handleAuthPacket
      (handleAuthPacket ⟨[], [], [], 1800⟩ [(1, List.replicate 32 5)]
        { magic := (70, 86, 80), type := 2, clientID := 1, sequence := 0,
          length := 0, version := 0, payload := [] } "addrA" 100
        (List.replicate 32 6)).1
      [(1, List.replicate 32 5)]
      { magic := (70, 86, 80), type := 2, clientID := 1, sequence := 0,
        length := 0, version := 0, payload := [] } "addrB" 200
      (List.replicate 32 6)
      = ((handleAuthPacket ⟨[], [], [], 1800⟩ [(1, List.replicate 32 5)]
          { magic := (70, 86, 80), type := 2, clientID := 1, sequence := 0,
            length := 0, version := 0, payload := [] } "addrA" 100
          (List.replicate 32 6)).1, none) :=
  ⟨by decide, by decide⟩

/-- **C4 (amended)** For an Auth packet with a claimed id in 1..255 whose
key is present in the registry, when a live peer-table entry already holds
that key (in particular, when the peer that authenticated with this claimed
id is still live), authentication does not replace the session: it fails
silently (`AddClient` returns `ErrClientAlreadyExists`) and the peer table
is returned unchanged — the remote address is not updated, `last_seq` is
not reset, and no peer is returned. -/
theorem claim_C4_auth_replace_amended {s : CMState}
    {registry : List (Nat × List Nat)} {pkt : Packet} {k : List Nat}
    (addr : String) (now : Nat) (freshKey : List Nat)
    (hid : ¬ pkt.clientID = 0)
    (hreg : alookup registry pkt.clientID = some k)
    (hlive : (alookup s.keyToClient k).isSome = true) :
    handleAuthPacket s registry pkt addr now freshKey = (s, none) := by
  unfold handleAuthPacket
  rw [if_neg hid, hreg]
  dsimp only
  unfold AddClient
  by_cases h1 : 256 ≤ s.clients.length
  · rw [if_pos h1]
  · rw [if_neg h1, if_pos hlive]

/-- **C4 witness**: the amended statement discharged at a concrete table
holding the registry key for id 1. -/
theorem claim_C4_auth_replace_amended_witness :
    (¬ ({ magic := (70, 86, 80), type := 2, clientID := 1, sequence := 0,
          length := 0, version := 0, payload := [] } : Packet).clientID
        = 0) ∧
    alookup [(1, List.replicate 32 5)]
      ({ magic := (70, 86, 80), type := 2, clientID := 1, sequence := 0,
         length := 0, version := 0, payload := [] } : Packet).clientID
      = some (List.replicate 32 5) ∧
    ((alookup (⟨[(1, ⟨(10, 0, 0, 2), List.replicate 32 5, "addrA", true,
        100, 0⟩)], [((10, 0, 0, 2), 1)], [(List.replicate 32 5, 1)],
        1800⟩ : CMState).keyToClient (List.replicate 32 5)).isSome = true) ∧
    handleAuthPacket
      ⟨[(1, ⟨(10, 0, 0, 2), List.replicate 32 5, "addrA", true, 100, 0⟩)],
        [((10, 0, 0, 2), 1)], [(List.replicate 32 5, 1)], 1800⟩
      [(1, List.replicate 32 5)]
      { magic := (70, 86, 80), type := 2, clientID := 1, sequence := 0,
        length := 0, version := 0, payload := [] } "addrB" 200
      (List.replicate 32 6)
      = (⟨[(1, ⟨(10, 0, 0, 2), List.replicate 32 5, "addrA", true, 100, 0⟩)],
          [((10, 0, 0, 2), 1)], [(List.replicate 32 5, 1)], 1800⟩, none) :=
  ⟨by decide, by decide, by decide,
   @claim_C4_auth_replace_amended
     ⟨[(1, ⟨(10, 0, 0, 2), List.replicate 32 5, "addrA", true, 100, 0⟩)],
       [((10, 0, 0, 2), 1)], [(List.replicate 32 5, 1)], 1800⟩
     [(1, List.replicate 32 5)]
     { magic := (70, 86, 80), type := 2, clientID := 1, sequence := 0,
       length := 0, version := 0, payload := [] }
     (List.replicate 32 5) "addrB" 200 (List.replicate 32 6)
     (by decide) (by decide) (by decide)⟩

/-- **C1** (code bug evidence) The egress path does not put a cleartext
header on the wire. With the AEAD modelled as plaintext plus a 16-byte tag,
for a live peer with `LastSeq = 0` and a concrete 20-byte datagram: the
bytes `createAndSendPacket` hands to the UDP socket differ from the claim's
`encode(header ++ seal(datagram))` (the code seals the *entire encoded
packet*, whose Length field moreover counts the plaintext, not the
ciphertext); the repository's own ingress (`DecodePacket`, used by the
symmetric client) rejects the code's bytes, while it accepts the bytes the
claim describes. -/
theorem claim_C1_egress_divergence :
    ((createAndSendPacket mockSeal
        ⟨(10, 0, 0, 2), List.replicate 32 7, "addrA", true, 100, 0⟩ 1
        [69, 0, 0, 20, 0, 0, 0, 0, 0, 0, 0, 0, 8, 8, 8, 8, 10, 0, 0, 2]).1 ≠
      EncodePacket
        { magic := (70, 86, 80), type := 1, clientID := 1, sequence := 1,
          length := (mockSeal
            [69, 0, 0, 20, 0, 0, 0, 0, 0, 0, 0, 0, 8, 8, 8, 8, 10, 0, 0, 2]
            (List.replicate 32 7) 1).length % 65536,
          version := ProtocolVersionByte,
          payload := mockSeal
            [69, 0, 0, 20, 0, 0, 0, 0, 0, 0, 0, 0, 8, 8, 8, 8, 10, 0, 0, 2]
            (List.replicate 32 7) 1 }) ∧
    DecodePacket (createAndSendPacket mockSeal
      ⟨(10, 0, 0, 2), List.replicate 32 7, "addrA", true, 100, 0⟩ 1
      [69, 0, 0, 20, 0, 0, 0, 0, 0, 0, 0, 0, 8, 8, 8, 8, 10, 0, 0, 2]).1
      = none ∧
    (DecodePacket (EncodePacket
      { magic := (70, 86, 80), type := 1, clientID := 1, sequence := 1,
        length := (mockSeal
          [69, 0, 0, 20, 0, 0, 0, 0, 0, 0, 0, 0, 8, 8, 8, 8, 10, 0, 0, 2]
          (List.replicate 32 7) 1).length % 65536,
        version := ProtocolVersionByte,
        payload := mockSeal
          [69, 0, 0, 20, 0, 0, 0, 0, 0, 0, 0, 0, 8, 8, 8, 8, 10, 0, 0, 2]
          (List.replicate 32 7) 1 })).isSome = true := by
  refine ⟨by decide, by decide, by decide⟩

/-- **C2** (code bug evidence) The egress path never commits the sequence
it used: for a live peer with `LastSeq = 0`, sending one datagram uses
sequence 1 and leaves the peer table bit-for-bit unchanged, so sending a
second datagram with no intervening state change uses sequence 1 again —
the same (key, sequence) AEAD pair is reused, which the claim (and the
spec's `record_outbound` contract) forbids. -/
theorem claim_C2_outbound_sequence_reuse :
    (ProcessOutgoingPacket mockSeal
      ⟨[(1, ⟨(10, 0, 0, 2), List.replicate 32 8, "addrC", true, 100, 0⟩)],
        [((10, 0, 0, 2), 1)], [(List.replicate 32 8, 1)], 1800⟩
      [69, 0, 0, 20, 0, 0, 0, 0, 0, 0, 0, 0, 8, 8, 8, 8, 10, 0, 0, 2]).1 =
      ⟨[(1, ⟨(10, 0, 0, 2), List.replicate 32 8, "addrC", true, 100, 0⟩)],
        [((10, 0, 0, 2), 1)], [(List.replicate 32 8, 1)], 1800⟩ ∧
    (ProcessOutgoingPacket mockSeal
      ⟨[(1, ⟨(10, 0, 0, 2), List.replicate 32 8, "addrC", true, 100, 0⟩)],
        [((10, 0, 0, 2), 1)], [(List.replicate 32 8, 1)], 1800⟩
      [69, 0, 0, 20, 0, 0, 0, 0, 0, 0, 0, 0, 8, 8, 8, 8, 10, 0, 0, 2]).2.map
        Prod.snd = some 1 ∧
    (ProcessOutgoingPacket mockSeal
      (ProcessOutgoingPacket mockSeal
        ⟨[(1, ⟨(10, 0, 0, 2), List.replicate 32 8, "addrC", true, 100, 0⟩)],
          [((10, 0, 0, 2), 1)], [(List.replicate 32 8, 1)], 1800⟩
        [69, 0, 0, 20, 0, 0, 0, 0, 0, 0, 0, 0, 8, 8, 8, 8, 10, 0, 0, 2]).1
      [69, 0, 0, 20, 0, 0, 0, 0, 0, 0, 0, 0, 8, 8, 8, 8, 10, 0, 0, 2]).2.map
        Prod.snd = some 1 := by
  refine ⟨by decide, by decide, by decide⟩

end FVP

